import Mathlib

/-!
Verification of the node-pbkdf2 password-hashing library.

The JavaScript source (src/index.js) is embedded shallowly:

* `NodePbkdf2.uid`, `NodePbkdf2.serializeEncryptedPassword`,
  `NodePbkdf2.deserializeEncryptedPassword`, `NodePbkdf2.ofOptions`
  (the constructor), `NodePbkdf2.encryptPassword`,
  `NodePbkdf2.encryptPasswordSync`, `NodePbkdf2.checkPassword` and
  `NodePbkdf2.checkPasswordSync` are direct translations of the functions
  of the same names in src/index.js.
* Node platform primitives that the source calls but that are not part of
  the repository (crypto.pbkdf2, crypto.randomBytes, Buffer base64
  encoding, String.prototype.split, parseInt, Number-to-string coercion)
  are modelled explicitly below; each such model carries a doc comment.
* Asynchronous promise-based functions and their synchronous twins have
  identical data flow in the source (reject/throw on a malformed record,
  resolve/return the boolean otherwise); both are modelled as pure
  functions into `Except String Bool`, rejection/throw being
  `Except.error` with the message used by the source (the source message
  uses the contraction "doesn&#39;t"; it is spelled without the
  apostrophe here).
* Randomness (crypto.randomBytes) is modelled by passing the drawn bytes
  as an explicit `entropy : List Nat` argument.
-/

/-- Modelled from the spec and ECMA parseInt: JS white space accepted by
parseInt before the number (space and the ASCII control white space). -/
def isJsWs (c : Char) : Bool := c.toNat = 32 || (9 ≤ c.toNat && c.toNat ≤ 13)

/-- Decimal digit character test, by code point (48 to 57). -/
def isDigitChar (c : Char) : Bool := 48 ≤ c.toNat && c.toNat ≤ 57

/-- Value of a decimal digit string, most significant digit first. -/
def digitsToNat (l : List Char) : Nat := l.foldl (fun a c => a * 10 + (c.toNat - 48)) 0

/-- Modelled from ECMA parseInt with radix 10: the longest decimal digit
prefix is taken; an empty digit prefix gives NaN, modelled as `none`. -/
def parseDigits (l : List Char) : Option Nat :=
  let ds := l.takeWhile isDigitChar
  if ds = [] then none else some (digitsToNat ds)

/-- Modelled from ECMA parseInt with radix 10: an optional sign followed by
the longest decimal digit prefix. -/
def parseSigned : List Char → Option Int
  | [] => none
  | c :: rest =>
    if c = '-' then (parseDigits rest).map (fun n => -(n : Int))
    else if c = '+' then (parseDigits rest).map (fun n => (n : Int))
    else (parseDigits (c :: rest)).map (fun n => (n : Int))

/-- Modelled from ECMA parseInt with radix 10, as called on line 53 and 54
of src/index.js: leading white space is skipped, then an optional sign and
a decimal digit prefix are read; NaN (no digits) is modelled as `none`. -/
def parseIntJS (s : String) : Option Int := parseSigned (s.data.dropWhile isJsWs)

/-- Decimal digit character for a value below ten. -/
def digitChar : Nat → Char
  | 0 => '0' | 1 => '1' | 2 => '2' | 3 => '3' | 4 => '4'
  | 5 => '5' | 6 => '6' | 7 => '7' | 8 => '8' | _ => '9'

/-- Decimal digits of a positive number, most significant first; `fuel`
bounds the recursion and any `fuel ≥ n` gives the exact digits. -/
def natToDigitsAux : Nat → Nat → List Char
  | 0, _ => []
  | _ + 1, 0 => []
  | fuel + 1, n + 1 => natToDigitsAux fuel ((n + 1) / 10) ++ [digitChar ((n + 1) % 10)]

/-- Modelled from the JS Number-to-String coercion used by the string
concatenation on lines 35 to 38 of src/index.js, for the natural numbers
the library stores there: ordinary base ten notation. -/
def natRepr (n : Nat) : String := if n = 0 then "0" else String.mk (natToDigitsAux n n)

/-- The standard base64 alphabet, in index order. -/
def b64Alphabet : List Char :=
  "ABCDEFGHIJKLMNOPQRSTUVWXYZabcdefghijklmnopqrstuvwxyz0123456789+/".data

/-- Character for the sextet value `n` (only `n < 64` is ever reached). -/
def b64Char (n : Nat) : Char := b64Alphabet.getD n '/'

/-- Modelled from Buffer.prototype.toString with encoding base64, as used
on lines 25, 78, 100, 121 and 146 of src/index.js: standard base64 with
padding, three bytes per group of four characters. -/
def b64Encode : List Nat → List Char
  | [] => []
  | [a] => [b64Char (a / 4), b64Char (a % 4 * 16), '=', '=']
  | [a, b] => [b64Char (a / 4), b64Char (a % 4 * 16 + b / 16), b64Char (b % 16 * 4), '=']
  | a :: b :: c :: rest =>
    b64Char (a / 4) :: b64Char (a % 4 * 16 + b / 16) ::
    b64Char (b % 16 * 4 + c / 64) :: b64Char (c % 64) :: b64Encode rest

/-- Index of a character in the base64 alphabet. -/
def b64CharInv (c : Char) : Nat := b64Alphabet.findIdx (fun d => d = c)

/-- First byte of a base64 group, from its first two characters. -/
def b64Byte1 (a b : Char) : Nat := b64CharInv a * 4 + b64CharInv b / 16

/-- Second byte of a base64 group, from its second and third characters. -/
def b64Byte2 (b c : Char) : Nat := b64CharInv b % 16 * 16 + b64CharInv c / 4

/-- Third byte of a base64 group, from its third and fourth characters. -/
def b64Byte3 (c d : Char) : Nat := b64CharInv c % 4 * 64 + b64CharInv d

/-- Base64 decoding, the inverse of `b64Encode` on byte lists; used only
to prove `b64Encode` injective. -/
def b64Decode : List Char → List Nat
  | a :: b :: c :: d :: rest =>
    if rest = [] then
      if c = '=' then [b64Byte1 a b]
      else if d = '=' then [b64Byte1 a b, b64Byte2 b c]
      else [b64Byte1 a b, b64Byte2 b c, b64Byte3 c d]
    else b64Byte1 a b :: b64Byte2 b c :: b64Byte3 c d :: b64Decode rest
  | _ => []

/-- Modelled from String.prototype.split with separator "::", as called on
line 48 of src/index.js: the string is cut at every occurrence of the
separator, scanning left to right, occurrences taken greedily from the
left and not overlapping. -/
def splitColons : List Char → List (List Char)
  | [] => [[]]
  | [c] => [[c]]
  | c :: d :: rest =>
    if c = ':' ∧ d = ':' then [] :: splitColons rest
    else
      match splitColons (d :: rest) with
      | [] => [[c]]
      | g :: gs => (c :: g) :: gs

/-- Whether the two-character separator "::" occurs in the list. -/
def hasDoubleColon : List Char → Bool
  | [] => false
  | [_] => false
  | c :: d :: rest => (c = ':' && d = ':') || hasDoubleColon (d :: rest)

/-- Base 255 digits of `n`, least significant first, each digit below 255;
`fuel ≥ n` gives the exact digits. -/
def natBytesAux : Nat → Nat → List Nat
  | 0, _ => []
  | _ + 1, 0 => []
  | fuel + 1, n + 1 => (n + 1) % 255 :: natBytesAux fuel ((n + 1) / 255)

/-- Base 255 digits of `n`, least significant first. -/
def natBytes (n : Nat) : List Nat := natBytesAux n n

/-- Value of a little-endian base 255 digit list. -/
def ofBytes (l : List Nat) : Nat := l.foldr (fun d acc => d + 255 * acc) 0

/-- A number rendered as a self-delimiting byte field: its base 255 digits
followed by the terminator byte 255. -/
def fieldBytes (n : Nat) : List Nat := natBytes n ++ [255]

/-- An injective numeric code for a character list, by iterated pairing. -/
def strCode (l : List Char) : Nat := l.foldr (fun c acc => Nat.pair c.toNat acc + 1) 0

/-- Modelled from the spec: crypto.pbkdf2 of node.js is not part of this
repository, and section 4.3 of the spec describes it as a deterministic
key-derivation function of (password, salt, iterations, keyLength,
digest) whose outputs for distinct inputs are distinct (its testable
properties rely on the absence of collisions). It is modelled as an ideal
injective deterministic function producing a byte list: every argument is
rendered as a self-delimiting byte field. The exact output length of the
real PBKDF2 is not modelled. -/
def pbkdf2Model (password salt : String) (iterations keyLen : Nat) (digest : String) : List Nat :=
  fieldBytes (strCode password.data) ++ fieldBytes (strCode salt.data) ++
  fieldBytes iterations ++ fieldBytes keyLen ++ fieldBytes (strCode digest.data)

/-- The options object accepted by the constructor on lines 10 to 17 of
src/index.js; `none` models an absent property. -/
structure Options where
  iterations : Option Nat := none
  saltLength : Option Nat := none
  derivedKeyLength : Option Nat := none
  digest : Option String := none

/-- A constructed hasher: the state set by the constructor. -/
structure NodePbkdf2 where
  iterations : Nat
  saltLength : Nat
  derivedKeyLength : Nat
  digest : String
deriving DecidableEq

/-- JS `x || d` for a possibly absent number: 0 and undefined are falsy. -/
def jsOrNat : Option Nat → Nat → Nat
  | none, d => d
  | some 0, d => d
  | some (n + 1), _ => n + 1

/-- JS `x || d` for a possibly absent string: "" and undefined are falsy. -/
def jsOrStr : Option String → String → String
  | none, d => d
  | some s, d => if s = "" then d else s

/-- The constructor NodePbkdf2 of src/index.js lines 10 to 17: each
configuration field falls back to its default when absent or falsy. -/
def NodePbkdf2.ofOptions (options : Options) : NodePbkdf2 :=
  { iterations := jsOrNat options.iterations 10000
    saltLength := jsOrNat options.saltLength 12
    derivedKeyLength := jsOrNat options.derivedKeyLength 30
    digest := jsOrStr options.digest "sha512" }

/-- NodePbkdf2.uid of src/index.js lines 23 to 27: the base64 encoding of
`len` random bytes, truncated to `len` characters. The bytes drawn from
crypto.randomBytes(len) are passed explicitly as `randomBytes`. -/
def NodePbkdf2.uid (len : Nat) (randomBytes : List Nat) : String :=
  String.mk ((b64Encode randomBytes).take len)

/-- The record serialized by the library: salt, derived key, derived key
length and iteration count. -/
structure EncryptedPassword where
  salt : String
  derivedKey : String
  derivedKeyLength : Nat
  iterations : Nat
deriving DecidableEq

/-- NodePbkdf2.serializeEncryptedPassword of src/index.js lines 34 to 39:
the four fields joined by "::" in fixed order. -/
def NodePbkdf2.serializeEncryptedPassword (encryptedPassword : EncryptedPassword) : String :=
  encryptedPassword.salt ++ "::" ++
  encryptedPassword.derivedKey ++ "::" ++
  natRepr encryptedPassword.derivedKeyLength ++ "::" ++
  natRepr encryptedPassword.iterations

/-- The result of deserialization: a field is `none` when the JS result
holds undefined (a missing item) or NaN (a failed parseInt). -/
structure DeserializedPassword where
  salt : Option String
  derivedKey : Option String
  derivedKeyLength : Option Int
  iterations : Option Int
deriving DecidableEq

/-- NodePbkdf2.deserializeEncryptedPassword of src/index.js lines 46 to 57:
split on "::", keep the first two items as strings, parse the third and
fourth as base ten integers. -/
def NodePbkdf2.deserializeEncryptedPassword (encryptedPassword : String) : DeserializedPassword :=
  let items := (splitColons encryptedPassword.data).map String.mk
  { salt := items[0]?
    derivedKey := items[1]?
    derivedKeyLength := (items[2]?).bind parseIntJS
    iterations := (items[3]?).bind parseIntJS }

/-- JS truthiness of a possibly absent string (undefined and "" falsy). -/
def truthyOptStr : Option String → Bool
  | none => false
  | some s => if s = "" then false else true

/-- JS truthiness of a possibly absent number (undefined, NaN, 0 falsy);
`none` stands for undefined or NaN. -/
def truthyOptInt : Option Int → Bool
  | none => false
  | some n => if n = 0 then false else true

/-- NodePbkdf2.prototype.encryptPassword of src/index.js lines 66 to 82: a
fresh salt of length saltLength, a key derived with the hasher
configuration, the record serialized. The promise always resolves in the
model, so the result is the serialized string. -/
def NodePbkdf2.encryptPassword (self : NodePbkdf2) (entropy : List Nat) (password : String) : String :=
  let randomSalt := NodePbkdf2.uid self.saltLength entropy
  let derivedKey := pbkdf2Model password randomSalt self.iterations self.derivedKeyLength self.digest
  NodePbkdf2.serializeEncryptedPassword
    { salt := randomSalt
      iterations := self.iterations
      derivedKeyLength := self.derivedKeyLength
      derivedKey := String.mk (b64Encode derivedKey) }

/-- NodePbkdf2.prototype.encryptPasswordSync of src/index.js lines 91 to
101: same data flow as encryptPassword, computed synchronously. -/
def NodePbkdf2.encryptPasswordSync (self : NodePbkdf2) (entropy : List Nat) (password : String) : String :=
  NodePbkdf2.encryptPassword self entropy password

/-- NodePbkdf2.prototype.checkPassword of src/index.js lines 109 to 128:
deserialize, reject when one of the four fields is falsy, rederive with
the record parameters and the hasher digest, resolve the comparison of
the base64 form with the stored derived key. -/
def NodePbkdf2.checkPassword (self : NodePbkdf2) (password encryptedPassword : String) :
    Except String Bool :=
  let r := NodePbkdf2.deserializeEncryptedPassword encryptedPassword
  if !truthyOptStr r.salt || !truthyOptStr r.derivedKey ||
     !truthyOptInt r.iterations || !truthyOptInt r.derivedKeyLength then
    Except.error "encryptedPassword does not have the right format"
  else
    let derivedKey := pbkdf2Model password (r.salt.getD "") (r.iterations.getD 0).toNat
      (r.derivedKeyLength.getD 0).toNat self.digest
    if String.mk (b64Encode derivedKey) = r.derivedKey.getD "" then Except.ok true
    else Except.ok false

/-- NodePbkdf2.prototype.checkPasswordSync of src/index.js lines 136 to
151: same data flow as checkPassword, computed synchronously; the thrown
TypeError corresponds to the rejection of the promise. -/
def NodePbkdf2.checkPasswordSync (self : NodePbkdf2) (password encryptedPassword : String) :
    Except String Bool :=
  NodePbkdf2.checkPassword self password encryptedPassword

/-- URL safety as claimed in the spec section 2 (a character set usable
unescaped in URLs and text fields): the unreserved characters of RFC 3986,
letters, digits, hyphen, period, underscore and tilde. -/
def isUrlSafeChar (c : Char) : Bool :=
  (65 ≤ c.toNat && c.toNat ≤ 90) || (97 ≤ c.toNat && c.toNat ≤ 122) ||
  (48 ≤ c.toNat && c.toNat ≤ 57) || c = '-' || c = '.' || c = '_' || c = '~'

deriving instance DecidableEq for Except

theorem char_toNat_inj {c d : Char} (h : c.toNat = d.toNat) : c = d :=
  Char.eq_of_val_eq (UInt32.ext h)

theorem b64Char_mem (n : Nat) : b64Char n ∈ b64Alphabet := by
  unfold b64Char
  rw [List.getD_eq_getElem?_getD]
  by_cases h : n < b64Alphabet.length
  · rw [List.getElem?_eq_getElem h]
    simpa using List.getElem_mem h
  · rw [List.getElem?_eq_none (Nat.le_of_not_lt h)]
    decide

theorem b64Char_ne_colon (n : Nat) : b64Char n ≠ ':' := by
  have halpha : ∀ c ∈ b64Alphabet, c ≠ ':' := by decide
  exact halpha _ (b64Char_mem n)

theorem b64Char_ne_pad (n : Nat) : b64Char n ≠ '=' := by
  have halpha : ∀ c ∈ b64Alphabet, c ≠ '=' := by decide
  exact halpha _ (b64Char_mem n)

theorem b64Encode_chars {l : List Nat} {c : Char} (hc : c ∈ b64Encode l) :
    c ∈ b64Alphabet ∨ c = '=' := by
  induction l using b64Encode.induct with
  | case1 => simp [b64Encode] at hc
  | case2 a =>
    simp [b64Encode] at hc
    rcases hc with rfl | rfl | rfl
    · exact Or.inl (b64Char_mem _)
    · exact Or.inl (b64Char_mem _)
    · exact Or.inr rfl
  | case3 a b =>
    simp [b64Encode] at hc
    rcases hc with rfl | rfl | rfl | rfl
    · exact Or.inl (b64Char_mem _)
    · exact Or.inl (b64Char_mem _)
    · exact Or.inl (b64Char_mem _)
    · exact Or.inr rfl
  | case4 a b c' rest ih =>
    simp [b64Encode] at hc
    rcases hc with rfl | rfl | rfl | rfl | hmem
    · exact Or.inl (b64Char_mem _)
    · exact Or.inl (b64Char_mem _)
    · exact Or.inl (b64Char_mem _)
    · exact Or.inl (b64Char_mem _)
    · exact ih hmem

theorem b64Encode_length (l : List Nat) : l.length ≤ (b64Encode l).length := by
  induction l using b64Encode.induct with
  | case1 => simp [b64Encode]
  | case2 a => simp [b64Encode]
  | case3 a b => simp [b64Encode]
  | case4 a b c rest ih => simp [b64Encode]; omega

theorem b64Encode_eq_nil_iff (l : List Nat) : b64Encode l = [] ↔ l = [] := by
  cases l with
  | nil => simp [b64Encode]
  | cons a t =>
    cases t with
    | nil => simp [b64Encode]
    | cons b t2 => cases t2 <;> simp [b64Encode]

theorem b64CharInv_b64Char : ∀ n, n < 64 → b64CharInv (b64Char n) = n := by decide

theorem b64_decode_encode (l : List Nat) (hb : ∀ x ∈ l, x < 256) :
    b64Decode (b64Encode l) = l := by
  induction l using b64Encode.induct with
  | case1 => simp [b64Encode, b64Decode]
  | case2 a =>
    have ha : a < 256 := hb a (by simp)
    have e1 : b64CharInv (b64Char (a / 4)) = a / 4 := b64CharInv_b64Char _ (by omega)
    have e2 : b64CharInv (b64Char (a % 4 * 16)) = a % 4 * 16 := b64CharInv_b64Char _ (by omega)
    simp [b64Encode, b64Decode, b64Byte1, e1, e2] <;> omega
  | case3 a b =>
    have ha : a < 256 := hb a (by simp)
    have hbb : b < 256 := hb b (by simp)
    have e1 : b64CharInv (b64Char (a / 4)) = a / 4 := b64CharInv_b64Char _ (by omega)
    have e2 : b64CharInv (b64Char (a % 4 * 16 + b / 16)) = a % 4 * 16 + b / 16 :=
      b64CharInv_b64Char _ (by omega)
    have e3 : b64CharInv (b64Char (b % 16 * 4)) = b % 16 * 4 := b64CharInv_b64Char _ (by omega)
    simp [b64Encode, b64Decode, b64Byte1, b64Byte2, b64Char_ne_pad, e1, e2, e3] <;> omega
  | case4 a b c rest ih =>
    have ha : a < 256 := hb a (by simp)
    have hbb : b < 256 := hb b (by simp)
    have hc : c < 256 := hb c (by simp)
    have hrest : ∀ x ∈ rest, x < 256 := fun x hx => hb x (by simp [hx])
    have e1 : b64CharInv (b64Char (a / 4)) = a / 4 := b64CharInv_b64Char _ (by omega)
    have e2 : b64CharInv (b64Char (a % 4 * 16 + b / 16)) = a % 4 * 16 + b / 16 :=
      b64CharInv_b64Char _ (by omega)
    have e3 : b64CharInv (b64Char (b % 16 * 4 + c / 64)) = b % 16 * 4 + c / 64 :=
      b64CharInv_b64Char _ (by omega)
    have e4 : b64CharInv (b64Char (c % 64)) = c % 64 := b64CharInv_b64Char _ (by omega)
    by_cases hr : rest = []
    · subst hr
      simp [b64Encode, b64Decode, b64Byte1, b64Byte2, b64Byte3, b64Char_ne_pad,
        e1, e2, e3, e4] <;> omega
    · have hne : b64Encode rest ≠ [] := by
        simpa [b64Encode_eq_nil_iff] using hr
      simp [b64Encode, b64Decode, b64Byte1, b64Byte2, b64Byte3, hne, e1, e2, e3, e4,
        ih hrest] <;> omega

theorem b64Encode_inj {l1 l2 : List Nat} (h1 : ∀ x ∈ l1, x < 256) (h2 : ∀ x ∈ l2, x < 256)
    (he : b64Encode l1 = b64Encode l2) : l1 = l2 := by
  have := congrArg b64Decode he
  rwa [b64_decode_encode l1 h1, b64_decode_encode l2 h2] at this

theorem str_ext {a b : String} (h : a.data = b.data) : a = b := String.ext h

theorem natBytesAux_lt (fuel : Nat) : ∀ n, ∀ x ∈ natBytesAux fuel n, x < 255 := by
  induction fuel with
  | zero => intro n x hx; simp [natBytesAux] at hx
  | succ f ih =>
    intro n x hx
    cases n with
    | zero => simp [natBytesAux] at hx
    | succ m =>
      simp only [natBytesAux, List.mem_cons] at hx
      rcases hx with rfl | hx
      · omega
      · exact ih _ x hx

theorem ofBytes_natBytesAux (fuel : Nat) : ∀ n, n ≤ fuel → ofBytes (natBytesAux fuel n) = n := by
  induction fuel with
  | zero =>
    intro n hn
    have : n = 0 := by omega
    subst this
    simp [natBytesAux, ofBytes]
  | succ f ih =>
    intro n hn
    cases n with
    | zero => simp [natBytesAux, ofBytes]
    | succ m =>
      have hd : (m + 1) / 255 ≤ f := by
        have := Nat.div_lt_self (Nat.succ_pos m) (by omega : 1 < 255)
        omega
      simp only [natBytesAux, ofBytes, List.foldr_cons]
      have := ih _ hd
      simp only [ofBytes] at this
      rw [this]
      omega

theorem natBytes_lt (n : Nat) : ∀ x ∈ natBytes n, x < 255 := natBytesAux_lt n n

theorem ofBytes_natBytes (n : Nat) : ofBytes (natBytes n) = n :=
  ofBytes_natBytesAux n n (Nat.le_refl n)

theorem natBytes_inj {a b : Nat} (h : natBytes a = natBytes b) : a = b := by
  have := congrArg ofBytes h
  rwa [ofBytes_natBytes, ofBytes_natBytes] at this

theorem sepSplit {xs : List Nat} : ∀ {ys l1 l2 : List Nat}, (∀ x ∈ xs, x < 255) →
    (∀ y ∈ ys, y < 255) → xs ++ 255 :: l1 = ys ++ 255 :: l2 → xs = ys ∧ l1 = l2 := by
  induction xs with
  | nil =>
    intro ys l1 l2 _ hy h
    cases ys with
    | nil => simpa using h
    | cons y ys2 =>
      simp only [List.nil_append, List.cons_append, List.cons.injEq] at h
      have := hy y (by simp)
      omega
  | cons x xs2 ih =>
    intro ys l1 l2 hx hy h
    cases ys with
    | nil =>
      simp only [List.nil_append, List.cons_append, List.cons.injEq] at h
      have := hx x (by simp)
      omega
    | cons y ys2 =>
      simp only [List.cons_append, List.cons.injEq] at h
      obtain ⟨rfl, h2⟩ := h
      have hrec := ih (fun a ha => hx a (by simp [ha])) (fun a ha => hy a (by simp [ha])) h2
      exact ⟨by rw [hrec.1], hrec.2⟩

theorem fieldBytes_append_inj {a b : Nat} {l1 l2 : List Nat}
    (h : fieldBytes a ++ l1 = fieldBytes b ++ l2) : a = b ∧ l1 = l2 := by
  simp only [fieldBytes, List.append_assoc, List.singleton_append] at h
  have := sepSplit (natBytes_lt a) (natBytes_lt b) h
  exact ⟨natBytes_inj this.1, this.2⟩

theorem fieldBytes_inj {a b : Nat} (h : fieldBytes a = fieldBytes b) : a = b := by
  have h2 : fieldBytes a ++ [] = fieldBytes b ++ [] := by simpa using h
  exact (fieldBytes_append_inj h2).1

theorem strCode_inj : ∀ {l1 l2 : List Char}, strCode l1 = strCode l2 → l1 = l2 := by
  intro l1
  induction l1 with
  | nil =>
    intro l2 h
    cases l2 with
    | nil => rfl
    | cons d u => simp [strCode] at h
  | cons c t ih =>
    intro l2 h
    cases l2 with
    | nil => simp [strCode] at h
    | cons d u =>
      simp only [strCode, List.foldr_cons] at h
      have h2 : Nat.pair c.toNat (strCode t) = Nat.pair d.toNat (strCode u) := by
        simp only [strCode]
        omega
      rw [Nat.pair_eq_pair] at h2
      rw [char_toNat_inj h2.1, ih h2.2]

theorem fieldBytes_lt (n : Nat) : ∀ x ∈ fieldBytes n, x < 256 := by
  intro x hx
  simp only [fieldBytes, List.mem_append, List.mem_singleton] at hx
  rcases hx with h | rfl
  · have := natBytes_lt n x h
    omega
  · omega

theorem pbkdf2Model_lt (p s : String) (i k : Nat) (d : String) :
    ∀ x ∈ pbkdf2Model p s i k d, x < 256 := by
  intro x hx
  simp only [pbkdf2Model, List.mem_append] at hx
  rcases hx with (((h | h) | h) | h) | h <;> exact fieldBytes_lt _ _ h

theorem pbkdf2Model_ne_nil (p s : String) (i k : Nat) (d : String) :
    pbkdf2Model p s i k d ≠ [] := by
  simp [pbkdf2Model, fieldBytes]

theorem pbkdf2Model_inj {p1 s1 : String} {i1 k1 : Nat} {d1 : String}
    {p2 s2 : String} {i2 k2 : Nat} {d2 : String}
    (h : pbkdf2Model p1 s1 i1 k1 d1 = pbkdf2Model p2 s2 i2 k2 d2) :
    p1 = p2 ∧ s1 = s2 ∧ i1 = i2 ∧ k1 = k2 ∧ d1 = d2 := by
  simp only [pbkdf2Model, List.append_assoc] at h
  obtain ⟨h1, h⟩ := fieldBytes_append_inj h
  obtain ⟨h2, h⟩ := fieldBytes_append_inj h
  obtain ⟨h3, h⟩ := fieldBytes_append_inj h
  obtain ⟨h4, h⟩ := fieldBytes_append_inj h
  have h5 := fieldBytes_inj h
  exact ⟨str_ext (strCode_inj h1), str_ext (strCode_inj h2), h3, h4,
    str_ext (strCode_inj h5)⟩

theorem digitChar_digit (d : Nat) : isDigitChar (digitChar d) = true := by
  unfold digitChar
  split <;> decide

theorem digitChar_toNat : ∀ d, d < 10 → (digitChar d).toNat = 48 + d := by decide

theorem digit_props {c : Char} (h : isDigitChar c = true) :
    isJsWs c = false ∧ c ≠ '-' ∧ c ≠ '+' ∧ c ≠ ':' := by
  simp only [isDigitChar, Bool.and_eq_true, decide_eq_true_eq] at h
  refine ⟨?_, ?_, ?_, ?_⟩
  · simp only [isJsWs, Bool.or_eq_false_iff, Bool.and_eq_false_iff, decide_eq_false_iff_not]
    omega
  · rintro rfl; revert h; decide
  · rintro rfl; revert h; decide
  · rintro rfl; revert h; decide

theorem natToDigitsAux_digits (fuel : Nat) :
    ∀ n, ∀ c ∈ natToDigitsAux fuel n, isDigitChar c = true := by
  induction fuel with
  | zero => intro n c hc; simp [natToDigitsAux] at hc
  | succ f ih =>
    intro n c hc
    cases n with
    | zero => simp [natToDigitsAux] at hc
    | succ m =>
      simp only [natToDigitsAux, List.mem_append, List.mem_singleton] at hc
      rcases hc with h | rfl
      · exact ih _ c h
      · exact digitChar_digit _

theorem digitsToNat_append (ds : List Char) (c : Char) :
    digitsToNat (ds ++ [c]) = digitsToNat ds * 10 + (c.toNat - 48) := by
  simp [digitsToNat, List.foldl_append]

theorem digitsToNat_natToDigitsAux (fuel : Nat) :
    ∀ n, n ≤ fuel → digitsToNat (natToDigitsAux fuel n) = n := by
  induction fuel with
  | zero =>
    intro n h
    have : n = 0 := by omega
    subst this
    simp [natToDigitsAux, digitsToNat]
  | succ f ih =>
    intro n h
    cases n with
    | zero => simp [natToDigitsAux, digitsToNat]
    | succ m =>
      have hd : (m + 1) / 10 ≤ f := by
        have := Nat.div_lt_self (Nat.succ_pos m) (by omega : 1 < 10)
        omega
      simp only [natToDigitsAux]
      rw [digitsToNat_append, ih _ hd, digitChar_toNat _ (by omega)]
      omega

theorem natToDigitsAux_ne_nil {fuel n : Nat} (h1 : 1 ≤ n) (h2 : n ≤ fuel) :
    natToDigitsAux fuel n ≠ [] := by
  cases fuel with
  | zero => omega
  | succ f =>
    cases n with
    | zero => omega
    | succ m => simp [natToDigitsAux]

theorem natRepr_digits (n : Nat) : ∀ c ∈ (natRepr n).data, isDigitChar c = true := by
  unfold natRepr
  by_cases h : n = 0
  · subst h
    intro c hc
    simp at hc
    subst hc
    decide
  · simp only [h, if_false]
    exact natToDigitsAux_digits n n

theorem parse_natRepr (n : Nat) : parseIntJS (natRepr n) = some (n : Int) := by
  by_cases h : n = 0
  · subst h; decide
  · unfold parseIntJS natRepr
    simp only [h, if_false]
    have hall := natToDigitsAux_digits n n
    have hne : natToDigitsAux n n ≠ [] := natToDigitsAux_ne_nil (by omega) (Nat.le_refl n)
    obtain ⟨c, rest, hcr⟩ := List.exists_cons_of_ne_nil hne
    have hcd : isDigitChar c = true := hall c (by rw [hcr]; simp)
    obtain ⟨hws, hminus, hplus, _⟩ := digit_props hcd
    have htake : (c :: rest).takeWhile isDigitChar = c :: rest :=
      List.takeWhile_eq_self_iff.mpr (by intro x hx; apply hall; rw [hcr]; exact hx)
    rw [hcr, List.dropWhile_cons, hws]
    simp only [Bool.false_eq_true, if_false]
    simp only [parseSigned, if_neg hminus, if_neg hplus]
    simp only [parseDigits, htake]
    rw [if_neg (by simp)]
    rw [← hcr, digitsToNat_natToDigitsAux n n (Nat.le_refl n)]
    simp

theorem data_append (a b : String) : (a ++ b).data = a.data ++ b.data := rfl

theorem mk_data (s : String) : String.mk s.data = s := rfl

theorem splitColons_colonFree : ∀ l : List Char, (∀ c ∈ l, c ≠ ':') → splitColons l = [l] := by
  intro l
  induction l with
  | nil => intro _; rfl
  | cons c t ih =>
    intro h
    cases t with
    | nil => rfl
    | cons d rest =>
      have hc : c ≠ ':' := h c (by simp)
      simp only [splitColons]
      rw [if_neg (fun hh => hc hh.1)]
      rw [ih (fun x hx => h x (by simp [hx]))]

theorem splitColons_cons (x y : Char) (t : List Char) (h : ¬(x = ':' ∧ y = ':')) :
    ∀ g gs, splitColons (y :: t) = g :: gs → splitColons (x :: y :: t) = (x :: g) :: gs := by
  intro g gs hg
  simp only [splitColons]
  rw [if_neg h, hg]

theorem splitColons_append (xs : List Char) : ∀ l, hasDoubleColon xs = false →
    xs.getLast? ≠ some ':' → splitColons (xs ++ ':' :: ':' :: l) = xs :: splitColons l := by
  induction xs with
  | nil =>
    intro l _ _
    simp [splitColons]
  | cons x xs2 ih =>
    intro l hdc hlast
    cases xs2 with
    | nil =>
      have hx : x ≠ ':' := by simpa using hlast
      have hin : splitColons (':' :: ':' :: l) = [] :: splitColons l := by simp [splitColons]
      exact splitColons_cons x ':' (':' :: l) (fun hh => hx hh.1) _ _ hin
    | cons y ys =>
      have hcond : ¬(x = ':' ∧ y = ':') := by
        intro hh
        simp only [hasDoubleColon, Bool.or_eq_false_iff, Bool.and_eq_false_iff,
          decide_eq_false_iff_not] at hdc
        rcases hdc.1 with h | h <;> exact h (by simp [hh.1, hh.2])
      have hdc2 : hasDoubleColon (y :: ys) = false := by
        simp only [hasDoubleColon, Bool.or_eq_false_iff] at hdc
        exact hdc.2
      have hlast2 : (y :: ys).getLast? ≠ some ':' := by
        rwa [List.getLast?_cons_cons] at hlast
      have ih2 := ih l hdc2 hlast2
      simp only [List.cons_append] at ih2 ⊢
      exact splitColons_cons x y (ys ++ ':' :: ':' :: l) hcond _ _ ih2

theorem colonFree_not_double {l : List Char} (h : ∀ c ∈ l, c ≠ ':') :
    hasDoubleColon l = false := by
  induction l with
  | nil => rfl
  | cons c t ih =>
    cases t with
    | nil => rfl
    | cons d rest =>
      have hc : c ≠ ':' := h c (by simp)
      have hrec := ih (fun x hx => h x (by simp [hx]))
      simp [hasDoubleColon, hc, hrec]

theorem colonFree_last {l : List Char} (h : ∀ c ∈ l, c ≠ ':') :
    l.getLast? ≠ some ':' := by
  intro hl
  exact h ':' (List.mem_of_mem_getLast? hl) rfl

theorem natRepr_colonFree (n : Nat) : ∀ c ∈ (natRepr n).data, c ≠ ':' :=
  fun c hc => (digit_props (natRepr_digits n c hc)).2.2.2

theorem hasDoubleColon_iff (l : List Char) :
    hasDoubleColon l = true ↔ ∃ u v, l = u ++ ':' :: ':' :: v := by
  constructor
  · intro h
    induction l with
    | nil => simp [hasDoubleColon] at h
    | cons c t ih =>
      cases t with
      | nil => simp [hasDoubleColon] at h
      | cons d rest =>
        simp only [hasDoubleColon, Bool.or_eq_true, Bool.and_eq_true,
          decide_eq_true_eq] at h
        rcases h with ⟨rfl, rfl⟩ | h
        · exact ⟨[], rest, rfl⟩
        · obtain ⟨u, v, huv⟩ := ih h
          exact ⟨c :: u, v, by simp [huv]⟩
  · rintro ⟨u, v, rfl⟩
    induction u with
    | nil => simp [hasDoubleColon]
    | cons x u2 ihu =>
      cases u2 with
      | nil => simp [hasDoubleColon]
      | cons y u3 =>
        simp only [List.cons_append, hasDoubleColon, Bool.or_eq_true]
        right
        simp only [List.cons_append] at ihu
        exact ihu

theorem deserialize_serialize (sa dk : String) (m k : Nat)
    (h1 : hasDoubleColon sa.data = false) (h2 : sa.data.getLast? ≠ some ':')
    (h3 : hasDoubleColon dk.data = false) (h4 : dk.data.getLast? ≠ some ':') :
    NodePbkdf2.deserializeEncryptedPassword
      (NodePbkdf2.serializeEncryptedPassword ⟨sa, dk, m, k⟩) =
      ⟨some sa, some dk, some (m : Int), some (k : Int)⟩ := by
  unfold NodePbkdf2.serializeEncryptedPassword NodePbkdf2.deserializeEncryptedPassword
  have hdata : (sa ++ "::" ++ dk ++ "::" ++ natRepr m ++ "::" ++ natRepr k).data
      = sa.data ++ ':' :: ':' :: (dk.data ++ ':' :: ':' ::
        ((natRepr m).data ++ ':' :: ':' :: (natRepr k).data)) := by
    simp [data_append, List.append_assoc]
  rw [hdata]
  rw [splitColons_append _ _ h1 h2]
  rw [splitColons_append _ _ h3 h4]
  rw [splitColons_append _ _ (colonFree_not_double (natRepr_colonFree m))
    (colonFree_last (natRepr_colonFree m))]
  rw [splitColons_colonFree _ (natRepr_colonFree k)]
  simp [mk_data, parse_natRepr]

theorem deserialize_serialize_colonFree (sa dk : String) (m k : Nat)
    (hs : ∀ c ∈ sa.data, c ≠ ':') (hd : ∀ c ∈ dk.data, c ≠ ':') :
    NodePbkdf2.deserializeEncryptedPassword
      (NodePbkdf2.serializeEncryptedPassword ⟨sa, dk, m, k⟩) =
      ⟨some sa, some dk, some (m : Int), some (k : Int)⟩ :=
  deserialize_serialize sa dk m k (colonFree_not_double hs) (colonFree_last hs)
    (colonFree_not_double hd) (colonFree_last hd)

theorem b64Alphabet_colonFree : ∀ c ∈ b64Alphabet, c ≠ ':' := by decide

theorem uid_chars (len : Nat) (bytes : List Nat) :
    ∀ c ∈ (NodePbkdf2.uid len bytes).data, c ∈ b64Alphabet ∨ c = '=' := by
  intro c hc
  have hm : c ∈ b64Encode bytes := List.take_subset _ _ hc
  exact b64Encode_chars hm

theorem uid_colonFree (len : Nat) (bytes : List Nat) :
    ∀ c ∈ (NodePbkdf2.uid len bytes).data, c ≠ ':' := by
  intro c hc
  rcases uid_chars len bytes c hc with h | rfl
  · exact b64Alphabet_colonFree c h
  · decide

theorem b64mk_colonFree (l : List Nat) :
    ∀ c ∈ (String.mk (b64Encode l)).data, c ≠ ':' := by
  intro c hc
  rcases b64Encode_chars (show c ∈ b64Encode l from hc) with hmem | rfl
  · exact b64Alphabet_colonFree c hmem
  · decide

theorem uid_length (len : Nat) (bytes : List Nat) (h : bytes.length = len) :
    (NodePbkdf2.uid len bytes).length = len := by
  have hb := b64Encode_length bytes
  rw [h] at hb
  show ((b64Encode bytes).take len).length = len
  rw [List.length_take]
  omega

theorem deserialize_encryptPassword (h : NodePbkdf2) (entropy : List Nat) (p : String) :
    NodePbkdf2.deserializeEncryptedPassword (NodePbkdf2.encryptPassword h entropy p) =
      ⟨some (NodePbkdf2.uid h.saltLength entropy),
       some (String.mk (b64Encode (pbkdf2Model p (NodePbkdf2.uid h.saltLength entropy)
         h.iterations h.derivedKeyLength h.digest))),
       some (h.derivedKeyLength : Int), some (h.iterations : Int)⟩ := by
  unfold NodePbkdf2.encryptPassword
  exact deserialize_serialize_colonFree _ _ _ _ (uid_colonFree _ _) (b64mk_colonFree _)

theorem checkPassword_wellformed (h : NodePbkdf2) (p s : String)
    (sa dk : String) (kl it : Int)
    (hd : NodePbkdf2.deserializeEncryptedPassword s = ⟨some sa, some dk, some kl, some it⟩)
    (hsa : sa ≠ "") (hdk : dk ≠ "") (hkl : kl ≠ 0) (hit : it ≠ 0) :
    NodePbkdf2.checkPassword h p s =
      if String.mk (b64Encode (pbkdf2Model p sa it.toNat kl.toNat h.digest)) = dk
      then Except.ok true else Except.ok false := by
  unfold NodePbkdf2.checkPassword
  rw [hd]
  simp [truthyOptStr, truthyOptInt, hsa, hdk, hkl, hit]

theorem check_encrypt_true (h1 h2 : NodePbkdf2) (entropy : List Nat) (p : String)
    (hdig : h2.digest = h1.digest) (hlen : entropy.length = h1.saltLength)
    (hpos : 0 < h1.saltLength) (hit : h1.iterations ≠ 0) (hkl : h1.derivedKeyLength ≠ 0) :
    NodePbkdf2.checkPassword h2 p (NodePbkdf2.encryptPassword h1 entropy p) = Except.ok true := by
  have hsalt_ne : NodePbkdf2.uid h1.saltLength entropy ≠ "" := by
    intro he
    have hl := uid_length h1.saltLength entropy hlen
    rw [he] at hl
    simp [String.length] at hl
    omega
  have hdk_ne : String.mk (b64Encode (pbkdf2Model p (NodePbkdf2.uid h1.saltLength entropy)
      h1.iterations h1.derivedKeyLength h1.digest)) ≠ "" := by
    intro he
    have hnil : b64Encode (pbkdf2Model p (NodePbkdf2.uid h1.saltLength entropy)
        h1.iterations h1.derivedKeyLength h1.digest) = [] := congrArg String.data he
    exact pbkdf2Model_ne_nil _ _ _ _ _ ((b64Encode_eq_nil_iff _).mp hnil)
  rw [checkPassword_wellformed h2 p _ _ _ _ _ (deserialize_encryptPassword h1 entropy p)
    hsalt_ne hdk_ne (by simpa using hkl) (by simpa using hit)]
  split
  · rfl
  · next hne =>
    exfalso
    apply hne
    simp [hdig]

theorem check_encrypt_false (h1 h2 : NodePbkdf2) (entropy : List Nat) (p p2 : String)
    (hp : p2 ≠ p) (hdig : h2.digest = h1.digest) (hlen : entropy.length = h1.saltLength)
    (hpos : 0 < h1.saltLength) (hit : h1.iterations ≠ 0) (hkl : h1.derivedKeyLength ≠ 0) :
    NodePbkdf2.checkPassword h2 p2 (NodePbkdf2.encryptPassword h1 entropy p) = Except.ok false := by
  have hsalt_ne : NodePbkdf2.uid h1.saltLength entropy ≠ "" := by
    intro he
    have hl := uid_length h1.saltLength entropy hlen
    rw [he] at hl
    simp [String.length] at hl
    omega
  have hdk_ne : String.mk (b64Encode (pbkdf2Model p (NodePbkdf2.uid h1.saltLength entropy)
      h1.iterations h1.derivedKeyLength h1.digest)) ≠ "" := by
    intro he
    have hnil : b64Encode (pbkdf2Model p (NodePbkdf2.uid h1.saltLength entropy)
        h1.iterations h1.derivedKeyLength h1.digest) = [] := congrArg String.data he
    exact pbkdf2Model_ne_nil _ _ _ _ _ ((b64Encode_eq_nil_iff _).mp hnil)
  rw [checkPassword_wellformed h2 p2 _ _ _ _ _ (deserialize_encryptPassword h1 entropy p)
    hsalt_ne hdk_ne (by simpa using hkl) (by simpa using hit)]
  split
  · next heq =>
    exfalso
    have hdata := congrArg String.data heq
    have hbytes := b64Encode_inj (pbkdf2Model_lt _ _ _ _ _) (pbkdf2Model_lt _ _ _ _ _) hdata
    exact hp (pbkdf2Model_inj hbytes).1
  · rfl

theorem splitColons_ne_nil (l : List Char) : splitColons l ≠ [] := by
  cases l with
  | nil => simp [splitColons]
  | cons c t =>
    cases t with
    | nil => simp [splitColons]
    | cons d rest =>
      simp only [splitColons]
      split
      · simp
      · split <;> simp

theorem jsOrNat_pos (v : Option Nat) (d : Nat) (hd : d ≠ 0) : jsOrNat v d ≠ 0 := by
  rcases v with _ | (_ | n) <;> simp [jsOrNat, hd]

theorem ofOptions_pos (o : Options) : (NodePbkdf2.ofOptions o).iterations ≠ 0 ∧
    (NodePbkdf2.ofOptions o).saltLength ≠ 0 ∧
    (NodePbkdf2.ofOptions o).derivedKeyLength ≠ 0 :=
  ⟨jsOrNat_pos _ _ (by decide), jsOrNat_pos _ _ (by decide), jsOrNat_pos _ _ (by decide)⟩

/-- C10: the constructor substitutes the default for any configuration
option that is absent or falsy (0 for the numbers, "" for the digest):
an all-falsy options object and an all-absent options object both give
the default configuration iterations 10000, saltLength 12,
derivedKeyLength 30, digest sha512, and no constructed hasher holds a
zero numeric configuration field. -/
theorem claim_C10 :
    (NodePbkdf2.ofOptions ⟨some 0, some 0, some 0, some ""⟩ =
      { iterations := 10000, saltLength := 12, derivedKeyLength := 30, digest := "sha512" }) ∧
    (NodePbkdf2.ofOptions ⟨none, none, none, none⟩ =
      { iterations := 10000, saltLength := 12, derivedKeyLength := 30, digest := "sha512" }) ∧
    ∀ o : Options, 0 < (NodePbkdf2.ofOptions o).iterations ∧
      0 < (NodePbkdf2.ofOptions o).saltLength ∧
      0 < (NodePbkdf2.ofOptions o).derivedKeyLength := by
  refine ⟨by decide, by decide, fun o => ?_⟩
  obtain ⟨h1, h2, h3⟩ := ofOptions_pos o
  exact ⟨Nat.pos_of_ne_zero h1, Nat.pos_of_ne_zero h2, Nat.pos_of_ne_zero h3⟩

/-- C7: for a positive length L and the L random bytes drawn for it,
uid returns a string of exactly L characters (the base64 encoding of L
bytes is at least L characters long and is truncated to L). -/
theorem claim_C7 (len : Nat) (bytes : List Nat) (hpos : 0 < len)
    (hlen : bytes.length = len) : (NodePbkdf2.uid len bytes).length = len :=
  uid_length len bytes hlen

/-- C7 witness: uid of length 3 on three concrete bytes. -/
theorem claim_C7_witness : (NodePbkdf2.uid 3 [0, 1, 2]).length = 3 :=
  claim_C7 3 [0, 1, 2] (by decide) rfl

/-- C9 counterexample: the claim says every character of uid output is
usable unescaped in URLs; drawing the two bytes 255, 255 makes
uid 2 = "//", and the slash is not an RFC 3986 unreserved character. -/
theorem claim_C9_counterexample :
    ¬ (∀ c ∈ (NodePbkdf2.uid 2 [255, 255]).data, isUrlSafeChar c = true) := by
  decide

/-- C9 amended: every character of uid output belongs to the standard
base64 alphabet (letters, digits, plus, slash) or is the padding sign;
these are text safe, but plus and slash need escaping inside URLs. -/
theorem claim_C9 (len : Nat) (bytes : List Nat) :
    ∀ c ∈ (NodePbkdf2.uid len bytes).data, c ∈ b64Alphabet ∨ c = '=' :=
  uid_chars len bytes

/-- C9 witness: the one character of uid 1 on the byte 0. -/
theorem claim_C9_witness : ('A' : Char) ∈ b64Alphabet ∨ ('A' : Char) = '=' :=
  claim_C9 1 [0] 'A' (by decide)

/-- C8: deserializeEncryptedPassword is total and degrades instead of
failing: the salt field is always present, items missing from the split
give an undefined field (`none`), and a third item that parseInt cannot
read gives a NaN derivedKeyLength (`none`). -/
theorem claim_C8 (s : String) :
    (NodePbkdf2.deserializeEncryptedPassword s).salt.isSome = true ∧
    ((splitColons s.data).length < 2 →
      (NodePbkdf2.deserializeEncryptedPassword s).derivedKey = none) ∧
    ((splitColons s.data).length < 3 →
      (NodePbkdf2.deserializeEncryptedPassword s).derivedKeyLength = none) ∧
    ((splitColons s.data).length < 4 →
      (NodePbkdf2.deserializeEncryptedPassword s).iterations = none) ∧
    (∀ t, (splitColons s.data)[2]? = some t → parseSigned (t.dropWhile isJsWs) = none →
      (NodePbkdf2.deserializeEncryptedPassword s).derivedKeyLength = none) := by
  have hpos : 0 < (splitColons s.data).length :=
    List.length_pos.mpr (splitColons_ne_nil s.data)
  refine ⟨?_, ?_, ?_, ?_, ?_⟩
  · obtain ⟨g, gs, hg⟩ : ∃ g gs, splitColons s.data = g :: gs := by
      cases hsc : splitColons s.data with
      | nil => exact absurd hsc (splitColons_ne_nil s.data)
      | cons g gs => exact ⟨g, gs, rfl⟩
    unfold NodePbkdf2.deserializeEncryptedPassword
    simp [hg]
  · intro hlt
    unfold NodePbkdf2.deserializeEncryptedPassword
    have hn : ((splitColons s.data).map String.mk)[1]? = none :=
      List.getElem?_eq_none (by simp only [List.length_map]; omega)
    simp [hn]
  · intro hlt
    unfold NodePbkdf2.deserializeEncryptedPassword
    have hn : ((splitColons s.data).map String.mk)[2]? = none :=
      List.getElem?_eq_none (by simp only [List.length_map]; omega)
    simp [hn]
  · intro hlt
    unfold NodePbkdf2.deserializeEncryptedPassword
    have hn : ((splitColons s.data).map String.mk)[3]? = none :=
      List.getElem?_eq_none (by simp only [List.length_map]; omega)
    simp [hn]
  · intro t ht hparse
    unfold NodePbkdf2.deserializeEncryptedPassword
    have hm : ((splitColons s.data).map String.mk)[2]? = some (String.mk t) := by
      rw [List.getElem?_map, ht]
      rfl
    simp [hm, parseIntJS, hparse]

/-- C8 witness: a string with a single field leaves derivedKey undefined. -/
theorem claim_C8_witness : (NodePbkdf2.deserializeEncryptedPassword "ab").derivedKey = none :=
  (claim_C8 "ab").2.1 (by decide)

/-- C5: when the deserialized record has a missing, empty, zero, or
non-numeric field (a non-numeric field is `none`, the NaN of the model),
checkPassword rejects and checkPasswordSync raises the format error, and
the outcome differs from the boolean false of a wrong password. -/
theorem claim_C5 (h : NodePbkdf2) (p s : String)
    (hbad : (NodePbkdf2.deserializeEncryptedPassword s).salt = none ∨
      (NodePbkdf2.deserializeEncryptedPassword s).salt = some "" ∨
      (NodePbkdf2.deserializeEncryptedPassword s).derivedKey = none ∨
      (NodePbkdf2.deserializeEncryptedPassword s).derivedKey = some "" ∨
      (NodePbkdf2.deserializeEncryptedPassword s).derivedKeyLength = none ∨
      (NodePbkdf2.deserializeEncryptedPassword s).derivedKeyLength = some 0 ∨
      (NodePbkdf2.deserializeEncryptedPassword s).iterations = none ∨
      (NodePbkdf2.deserializeEncryptedPassword s).iterations = some 0) :
    NodePbkdf2.checkPassword h p s =
      Except.error "encryptedPassword does not have the right format" ∧
    NodePbkdf2.checkPasswordSync h p s =
      Except.error "encryptedPassword does not have the right format" ∧
    NodePbkdf2.checkPassword h p s ≠ Except.ok false ∧
    NodePbkdf2.checkPasswordSync h p s ≠ Except.ok false := by
  have herr : NodePbkdf2.checkPassword h p s =
      Except.error "encryptedPassword does not have the right format" := by
    simp only [NodePbkdf2.checkPassword]
    rcases hbad with hb | hb | hb | hb | hb | hb | hb | hb <;>
      rw [hb] <;> simp [truthyOptStr, truthyOptInt]
  refine ⟨herr, herr, ?_, ?_⟩
  · rw [herr]
    simp
  · rw [show NodePbkdf2.checkPasswordSync h p s = NodePbkdf2.checkPassword h p s from rfl, herr]
    simp

/-- C5 witness: a record string with a single field has an undefined
derivedKey, so synchronous checking raises the format error. -/
theorem claim_C5_witness :
    NodePbkdf2.checkPasswordSync (NodePbkdf2.ofOptions ⟨none, none, none, none⟩) "p" "x" =
      Except.error "encryptedPassword does not have the right format" :=
  (claim_C5 _ "p" "x" (by decide)).2.1

/-- C2: on a well formed record (all four fields present and truthy) both
check functions rederive the key from the candidate password with the
record salt, iterations and derivedKeyLength and the hasher digest, and
give ok true exactly when the base64 form equals the stored derived key,
ok false otherwise (never an error); the result is the same for every
hasher with the same digest, so the hasher numeric configuration is
never used. -/
theorem claim_C2 (h : NodePbkdf2) (p s : String) (sa dk : String) (kl it : Int)
    (hd : NodePbkdf2.deserializeEncryptedPassword s = ⟨some sa, some dk, some kl, some it⟩)
    (hsa : sa ≠ "") (hdk : dk ≠ "") (hkl : kl ≠ 0) (hit : it ≠ 0) :
    (NodePbkdf2.checkPassword h p s =
      if String.mk (b64Encode (pbkdf2Model p sa it.toNat kl.toNat h.digest)) = dk
      then Except.ok true else Except.ok false) ∧
    (NodePbkdf2.checkPasswordSync h p s =
      if String.mk (b64Encode (pbkdf2Model p sa it.toNat kl.toNat h.digest)) = dk
      then Except.ok true else Except.ok false) ∧
    ∀ h2 : NodePbkdf2, h2.digest = h.digest →
      NodePbkdf2.checkPassword h2 p s = NodePbkdf2.checkPassword h p s := by
  have h1 := checkPassword_wellformed h p s sa dk kl it hd hsa hdk hkl hit
  refine ⟨h1, h1, fun h2 hdig => ?_⟩
  rw [checkPassword_wellformed h2 p s sa dk kl it hd hsa hdk hkl hit, h1, hdig]

/-- C2 witness: a concrete well formed record checked against a password
that does not match gives ok false through the comparison form. -/
theorem claim_C2_witness :
    NodePbkdf2.checkPassword (NodePbkdf2.ofOptions ⟨none, none, none, none⟩) "p" "ab::cd::5::6" =
      if String.mk (b64Encode (pbkdf2Model "p" "ab" (6 : Int).toNat (5 : Int).toNat
        (NodePbkdf2.ofOptions ⟨none, none, none, none⟩).digest)) = "cd"
      then Except.ok true else Except.ok false :=
  (claim_C2 _ "p" "ab::cd::5::6" "ab" "cd" 5 6 (by decide) (by decide) (by decide)
    (by decide) (by decide)).1

/-- C1: a record encrypted by one constructed hasher is verified
successfully by any constructed hasher with the same digest, whatever
the rest of its configuration, because checking uses the parameters
embedded in the record. -/
theorem claim_C1 (o1 o2 : Options) (p : String) (entropy : List Nat)
    (hdig : (NodePbkdf2.ofOptions o2).digest = (NodePbkdf2.ofOptions o1).digest)
    (hlen : entropy.length = (NodePbkdf2.ofOptions o1).saltLength) :
    NodePbkdf2.checkPassword (NodePbkdf2.ofOptions o2) p
      (NodePbkdf2.encryptPassword (NodePbkdf2.ofOptions o1) entropy p) = Except.ok true := by
  obtain ⟨hit, hsl, hkl⟩ := ofOptions_pos o1
  exact check_encrypt_true _ _ entropy p hdig hlen (Nat.pos_of_ne_zero hsl) hit hkl

/-- C1 witness: two hashers with different numeric configurations and the
same digest; the second checks what the first encrypted. -/
theorem claim_C1_witness :
    NodePbkdf2.checkPassword (NodePbkdf2.ofOptions ⟨some 2, some 3, some 4, some "d"⟩) "a"
      (NodePbkdf2.encryptPassword (NodePbkdf2.ofOptions ⟨some 1, some 2, some 3, some "d"⟩)
        [0, 1] "a") = Except.ok true :=
  claim_C1 ⟨some 1, some 2, some 3, some "d"⟩ ⟨some 2, some 3, some 4, some "d"⟩ "a" [0, 1]
    (by decide) (by decide)

/-- C4: for every constructed hasher, checking the original password
against its encrypted record gives true and checking the password with
an extra character gives false, for the asynchronous and the synchronous
pair alike. -/
theorem claim_C4 (o : Options) (p : String) (entropy : List Nat)
    (hlen : entropy.length = (NodePbkdf2.ofOptions o).saltLength) :
    NodePbkdf2.checkPassword (NodePbkdf2.ofOptions o) p
      (NodePbkdf2.encryptPassword (NodePbkdf2.ofOptions o) entropy p) = Except.ok true ∧
    NodePbkdf2.checkPassword (NodePbkdf2.ofOptions o) (p ++ "x")
      (NodePbkdf2.encryptPassword (NodePbkdf2.ofOptions o) entropy p) = Except.ok false ∧
    NodePbkdf2.checkPasswordSync (NodePbkdf2.ofOptions o) p
      (NodePbkdf2.encryptPasswordSync (NodePbkdf2.ofOptions o) entropy p) = Except.ok true ∧
    NodePbkdf2.checkPasswordSync (NodePbkdf2.ofOptions o) (p ++ "x")
      (NodePbkdf2.encryptPasswordSync (NodePbkdf2.ofOptions o) entropy p) = Except.ok false := by
  obtain ⟨hit, hsl, hkl⟩ := ofOptions_pos o
  have hpx : p ++ "x" ≠ p := by
    intro he
    have hdata := congrArg String.data he
    rw [data_append] at hdata
    have := congrArg List.length hdata
    simp at this
  have htrue := check_encrypt_true _ _ entropy p rfl hlen (Nat.pos_of_ne_zero hsl) hit hkl
  have hfalse := check_encrypt_false _ _ entropy p (p ++ "x") hpx rfl hlen
    (Nat.pos_of_ne_zero hsl) hit hkl
  exact ⟨htrue, hfalse, htrue, hfalse⟩

/-- C4 witness: the modified password is rejected on a concrete record. -/
theorem claim_C4_witness :
    NodePbkdf2.checkPassword (NodePbkdf2.ofOptions ⟨some 1, some 2, some 3, some "d"⟩)
      ("a" ++ "x")
      (NodePbkdf2.encryptPassword (NodePbkdf2.ofOptions ⟨some 1, some 2, some 3, some "d"⟩)
        [0, 1] "a") = Except.ok false :=
  (claim_C4 ⟨some 1, some 2, some 3, some "d"⟩ "a" [0, 1] (by decide)).2.1

/-- C6: the separator "::" never occurs inside the base64 encoded salt or
derived key of a record built by encryptPassword (or its synchronous
twin, which produces the same string), so deserializing the produced
string recovers exactly the four serialized fields. -/
theorem claim_C6 (o : Options) (entropy : List Nat) (p : String) :
    (¬ ∃ u v, (NodePbkdf2.uid (NodePbkdf2.ofOptions o).saltLength entropy).data =
      u ++ ':' :: ':' :: v) ∧
    (¬ ∃ u v, (String.mk (b64Encode (pbkdf2Model p
      (NodePbkdf2.uid (NodePbkdf2.ofOptions o).saltLength entropy)
      (NodePbkdf2.ofOptions o).iterations (NodePbkdf2.ofOptions o).derivedKeyLength
      (NodePbkdf2.ofOptions o).digest))).data = u ++ ':' :: ':' :: v) ∧
    NodePbkdf2.deserializeEncryptedPassword
      (NodePbkdf2.encryptPassword (NodePbkdf2.ofOptions o) entropy p) =
      ⟨some (NodePbkdf2.uid (NodePbkdf2.ofOptions o).saltLength entropy),
       some (String.mk (b64Encode (pbkdf2Model p
         (NodePbkdf2.uid (NodePbkdf2.ofOptions o).saltLength entropy)
         (NodePbkdf2.ofOptions o).iterations (NodePbkdf2.ofOptions o).derivedKeyLength
         (NodePbkdf2.ofOptions o).digest))),
       some ((NodePbkdf2.ofOptions o).derivedKeyLength : Int),
       some ((NodePbkdf2.ofOptions o).iterations : Int)⟩ ∧
    NodePbkdf2.encryptPasswordSync (NodePbkdf2.ofOptions o) entropy p =
      NodePbkdf2.encryptPassword (NodePbkdf2.ofOptions o) entropy p := by
  refine ⟨?_, ?_, deserialize_encryptPassword _ entropy p, rfl⟩
  · rintro ⟨u, v, huv⟩
    have ht := (hasDoubleColon_iff _).mpr ⟨u, v, huv⟩
    rw [colonFree_not_double (uid_colonFree _ _)] at ht
    exact Bool.false_ne_true ht
  · rintro ⟨u, v, huv⟩
    have ht := (hasDoubleColon_iff _).mpr ⟨u, v, huv⟩
    rw [colonFree_not_double (b64mk_colonFree _)] at ht
    exact Bool.false_ne_true ht

/-- C6 witness: the salt created for a concrete record holds no "::". -/
theorem claim_C6_witness :
    ¬ ∃ u v, (NodePbkdf2.uid
      (NodePbkdf2.ofOptions ⟨some 1, some 2, some 3, some "d"⟩).saltLength [0, 1]).data =
      u ++ ':' :: ':' :: v :=
  (claim_C6 ⟨some 1, some 2, some 3, some "d"⟩ [0, 1] "a").1

/-- C3 counterexample: the record with salt "a:", derivedKey "b" and both
numbers 1 satisfies the stated conditions (neither string contains "::"
and the numbers are positive), yet serializing gives "a:::b::1::1",
whose first split field is "a", not "a:": the round trip law as stated
fails because the salt may end with a colon. -/
theorem claim_C3_counterexample :
    (¬ ∃ u v, ("a:" : String).data = u ++ ':' :: ':' :: v) ∧
    (¬ ∃ u v, ("b" : String).data = u ++ ':' :: ':' :: v) ∧
    0 < (1 : Nat) ∧ 0 < (1 : Nat) ∧
    NodePbkdf2.deserializeEncryptedPassword
      (NodePbkdf2.serializeEncryptedPassword ⟨"a:", "b", 1, 1⟩) ≠
      ⟨some "a:", some "b", some 1, some 1⟩ := by
  refine ⟨?_, ?_, Nat.one_pos, Nat.one_pos, by decide⟩
  · rintro ⟨u, v, huv⟩
    have ht := (hasDoubleColon_iff (("a:" : String).data)).mpr ⟨u, v, huv⟩
    revert ht
    decide
  · rintro ⟨u, v, huv⟩
    have ht := (hasDoubleColon_iff (("b" : String).data)).mpr ⟨u, v, huv⟩
    revert ht
    decide

/-- C3 amended: for a record whose salt and derivedKey contain no
occurrence of "::" and do not end with a colon, with positive numeric
fields, deserialization of the serialization recovers every field. -/
theorem claim_C3 (r : EncryptedPassword)
    (hs1 : ¬ ∃ u v, r.salt.data = u ++ ':' :: ':' :: v)
    (hs2 : r.salt.data.getLast? ≠ some ':')
    (hd1 : ¬ ∃ u v, r.derivedKey.data = u ++ ':' :: ':' :: v)
    (hd2 : r.derivedKey.data.getLast? ≠ some ':')
    (hkl : 0 < r.derivedKeyLength) (hit : 0 < r.iterations) :
    NodePbkdf2.deserializeEncryptedPassword (NodePbkdf2.serializeEncryptedPassword r) =
      ⟨some r.salt, some r.derivedKey, some (r.derivedKeyLength : Int),
       some (r.iterations : Int)⟩ := by
  obtain ⟨sa, dk, m, k⟩ := r
  have h1 : hasDoubleColon sa.data = false := by
    cases hb : hasDoubleColon sa.data
    · rfl
    · exact absurd ((hasDoubleColon_iff _).mp hb) hs1
  have h3 : hasDoubleColon dk.data = false := by
    cases hb : hasDoubleColon dk.data
    · rfl
    · exact absurd ((hasDoubleColon_iff _).mp hb) hd1
  exact deserialize_serialize sa dk m k h1 hs2 h3 hd2

/-- C3 witness: the amended round trip on a concrete colon free record. -/
theorem claim_C3_witness :
    NodePbkdf2.deserializeEncryptedPassword
      (NodePbkdf2.serializeEncryptedPassword ⟨"ab", "cd", 1, 2⟩) =
      ⟨some "ab", some "cd", some 1, some 2⟩ :=
  claim_C3 ⟨"ab", "cd", 1, 2⟩
    (by rintro ⟨u, v, huv⟩
        have ht := (hasDoubleColon_iff (("ab" : String).data)).mpr ⟨u, v, huv⟩
        revert ht
        decide)
    (by decide)
    (by rintro ⟨u, v, huv⟩
        have ht := (hasDoubleColon_iff (("cd" : String).data)).mpr ⟨u, v, huv⟩
        revert ht
        decide)
    (by decide) (by decide) (by decide)
